import Mathlib

/-!
Shallow embedding of `src/kudu/common/encoded_key.cc`: the `EncodedKey`
value type and the `EncodedKeyBuilder` incremental assembler, together
with theorems checking the natural-language specification against them.

Bytes are modelled as `Nat`, raw-value pointers as `Nat` addresses, and
the external collaborators (Schema, Arena, per-type key codec) as
structures of abstract functions, matching the collaborator contracts
the source calls into.
-/

set_option autoImplicit false

namespace Kudu

/-- The external `Schema` collaborator, as used by `encoded_key.cc`:
key-column count, worst-case key byte size, per-column byte offsets in a
decoded row, the row-key decoder invoked by `DecodeEncodedString`, and
the per-column pieces of the key codec and the debug stringifier that
`AddColumnKey` and `Stringify` dispatch to. -/
structure Schema where
  num_key_columns : Nat
  key_byte_size : Nat
  column_offset : Nat → Nat
  /-- `Schema::DecodeRowKey(encoded, raw_key_buf, arena)`: abstract
  decoder; `Except.error` carries the decode failure message. -/
  decodeRowKey : List Nat → Nat → Except String Unit
  /-- `GetKeyEncoder(col_type).Encode(raw_key, is_last, buf)`: the bytes
  appended to the buffer for column `i`, value pointer `v`, flag
  `is_last`. -/
  colEncode : Nat → Nat → Bool → List Nat
  /-- `schema.column(i).Stringify(ptr)`. -/
  colStringify : Nat → Nat → String
  /-- `schema.column(i).is_nullable()`. -/
  colNullable : Nat → Bool

/-- The external `Arena` collaborator: `AllocateBytes(n)` returns a base
pointer, or `none` on out-of-memory. -/
structure Arena where
  allocateBytes : Nat → Option Nat

/-- `EncodedKey`: owns its encoded bytes (`data_`), holds the raw-value
pointers (`raw_keys_`) and the schema's key-column count. -/
structure EncodedKey where
  data_ : List Nat
  raw_keys_ : List Nat
  num_key_cols_ : Nat
deriving Repr, DecidableEq

/-- `EncodedKeyBuilder`: schema-bound incremental assembler with the
growing encoded buffer, the raw-value references collected so far, the
schema's key-column count and the column cursor `idx_`. -/
structure EncodedKeyBuilder where
  schema_ : Schema
  encoded_key_ : List Nat
  num_key_cols_ : Nat
  idx_ : Nat
  raw_keys_ : List Nat

namespace EncodedKeyBuilder

/-- `EncodedKeyBuilder::EncodedKeyBuilder(schema)`: empty buffer
(capacity pre-sized to `key_byte_size`, which a list model does not
track), cursor 0, no raw values. -/
def mkNew (schema : Schema) : EncodedKeyBuilder :=
  { schema_ := schema
    encoded_key_ := []
    num_key_cols_ := schema.num_key_columns
    idx_ := 0
    raw_keys_ := [] }

/-- `EncodedKeyBuilder::Reset()`: clear buffer, cursor and raw values
(capacity is retained in the source, which the list model does not
track). -/
def Reset (b : EncodedKeyBuilder) : EncodedKeyBuilder :=
  { b with encoded_key_ := [], idx_ := 0, raw_keys_ := [] }

/-- The `is_last` flag `AddColumnKey` passes to the per-type codec:
`idx_ == num_key_cols_ - 1`. -/
def isLastFlag (b : EncodedKeyBuilder) : Bool :=
  decide (b.idx_ = b.num_key_cols_ - 1)

/-- `EncodedKeyBuilder::AddColumnKey(raw_key)`: encode the value for the
column at the cursor (passing `isLastFlag`), append the raw reference,
advance the cursor. The source `DCHECK`s `idx_ < num_key_cols_` and
non-nullability; the release-mode data flow is modelled. -/
def AddColumnKey (b : EncodedKeyBuilder) (raw_key : Nat) : EncodedKeyBuilder :=
  { b with
    encoded_key_ := b.encoded_key_ ++ b.schema_.colEncode b.idx_ raw_key b.isLastFlag
    raw_keys_ := b.raw_keys_ ++ [raw_key]
    idx_ := b.idx_ + 1 }

/-- `EncodedKeyBuilder::BuildEncodedKey()`: `none` when no column was
added; otherwise a new `EncodedKey` takes ownership of the buffer and
raw-value list (both move out, leaving the builder's empty) and the
cursor resets to 0. Returns the result together with the builder's
post-state. -/
def BuildEncodedKey (b : EncodedKeyBuilder) :
    Option EncodedKey × EncodedKeyBuilder :=
  if b.idx_ = 0 then
    (none, b)
  else
    (some { data_ := b.encoded_key_
            raw_keys_ := b.raw_keys_
            num_key_cols_ := b.num_key_cols_ },
     { b with encoded_key_ := [], raw_keys_ := [], idx_ := 0 })

end EncodedKeyBuilder

/-- Modelled from the spec: `faststring::AdvanceToSuccessor`, the
in-place advance-to-successor transform, is not part of `src/` (it lives
in the utility layer). Per the spec it increments the last byte; a byte
already at the maximum value (255) resets to the minimum (0) and the
carry propagates leftward; if every byte overflows no successor exists
and the transform reports failure. Operates on the reversed buffer;
returns (successor-exists, resulting bytes). -/
def advanceRev : List Nat → Bool × List Nat
  | [] => (false, [])
  | b :: rest =>
    if b = 255 then
      let r := advanceRev rest
      (r.1, 0 :: r.2)
    else
      (true, (b + 1) :: rest)

/-- Modelled from the spec: the advance-to-successor transform on the
buffer in big-endian order (see `advanceRev`). -/
def AdvanceToSuccessor (buf : List Nat) : Bool × List Nat :=
  let r := advanceRev buf.reverse
  (r.1, r.2.reverse)

namespace EncodedKeyBuilder

/-- `EncodedKeyBuilder::BuildSuccessorEncodedKey()`:
`encoded_key_.AdvanceToSuccessor() ? BuildEncodedKey() : NULL`. The
transform mutates the buffer in place first; only on success does
finalization run. -/
def BuildSuccessorEncodedKey (b : EncodedKeyBuilder) :
    Option EncodedKey × EncodedKeyBuilder :=
  let r := AdvanceToSuccessor b.encoded_key_
  let b' := { b with encoded_key_ := r.2 }
  if r.1 then b'.BuildEncodedKey else (none, b')

/-- `EncodedKeyBuilder::AssignCopy(other)`: deep-copy the buffer, cursor
and raw-value list from `other` (the `DCHECK_SCHEMA_EQ` precondition is
a debug assertion). -/
def AssignCopy (b other : EncodedKeyBuilder) : EncodedKeyBuilder :=
  { b with
    encoded_key_ := other.encoded_key_
    idx_ := other.idx_
    raw_keys_ := other.raw_keys_ }

end EncodedKeyBuilder

namespace EncodedKey

/-- Status of `EncodedKey::DecodeEncodedString`. -/
inductive DecodeStatus where
  | okS
  | oom
  | decodeError (msg : String)
deriving Repr, DecidableEq

/-- `EncodedKey::DecodeEncodedString(schema, arena, encoded, result)`:
allocate `key_byte_size` bytes (OOM on failure), run the schema's
row-key decoder (propagating its error), compute one raw-value pointer
per key column as `base + column_offset(i)`, copy the encoded bytes and
construct the key. The returned `Option` models the `result` out-slot:
it is populated only on success. -/
def DecodeEncodedString (schema : Schema) (arena : Arena)
    (encoded : List Nat) : DecodeStatus × Option EncodedKey :=
  match arena.allocateBytes schema.key_byte_size with
  | none => (.oom, none)
  | some base =>
    match schema.decodeRowKey encoded base with
    | .error e => (.decodeError e, none)
    | .ok _ =>
      let raw_keys := (List.range schema.num_key_columns).map
        (fun i => base + schema.column_offset i)
      (.okS, some { data_ := encoded
                    raw_keys_ := raw_keys
                    num_key_cols_ := schema.num_key_columns })

/-- Status of `EncodedKey::IncrementEncodedKey`. -/
inductive IncStatus where
  | ok
  | noSuccessor
deriving Repr, DecidableEq

/-- The indices at which `IncrementEncodedKey` reads `key->raw_keys()`:
`for (int i = 0; i < tablet_schema.num_key_columns(); i++)`. -/
def incrementReadIndices (schema : Schema) : List Nat :=
  List.range schema.num_key_columns

/-- `EncodedKey::IncrementEncodedKey(schema, key)`: rebuild a fresh
builder from the key's raw values, ask for the successor-finalize; on
failure return `noSuccessor` with the key slot untouched, on success
swap the successor in. Out-of-range vector reads are modelled with
`getD` (the source uses unchecked `operator[]`; see
`incrementReadIndices`). -/
def IncrementEncodedKey (schema : Schema) (key : EncodedKey) :
    IncStatus × EncodedKey :=
  let kb := (incrementReadIndices schema).foldl
    (fun b i => b.AddColumnKey (key.raw_keys_.getD i 0))
    (EncodedKeyBuilder.mkNew schema)
  match kb.BuildSuccessorEncodedKey with
  | (some succ, _) => (.ok, succ)
  | (none, _) => (.noSuccessor, key)

/-- `EncodedKey::Stringify(schema)`. The single-column path calls
`raw_keys_.front()`, which is well-defined only on a non-empty vector;
the model returns `none` exactly when that access would be out of range.
The multi-column path renders a parenthesized comma-separated tuple,
using the column formatter below `raw_keys_.size()` and `*` beyond it. -/
def Stringify (k : EncodedKey) (schema : Schema) : Option String :=
  if k.num_key_cols_ = 1 then
    k.raw_keys_.head?.map (fun p => schema.colStringify 0 p)
  else
    some (((List.range k.num_key_cols_).foldl
      (fun s i =>
        s ++ (if i > 0 then "," else "") ++
          (if i < k.raw_keys_.length then
            schema.colStringify i (k.raw_keys_.getD i 0)
          else "*"))
      "(") ++ ")")

end EncodedKey

namespace EncodedKeyBuilder

/-- A sequence of `AddColumnKey` calls, one per value. -/
def addAll (b : EncodedKeyBuilder) (vals : List Nat) : EncodedKeyBuilder :=
  vals.foldl AddColumnKey b

/-- The `is_last` flags passed to the codec by the successive
`AddColumnKey` calls of `addAll`, in call order. -/
def addFlags (b : EncodedKeyBuilder) : List Nat → List Bool
  | [] => []
  | v :: rest => b.isLastFlag :: addFlags (b.AddColumnKey v) rest

/-- The builder invariant from the spec:
`next_index == raw_values_so_far.length`. -/
def cursorInv (b : EncodedKeyBuilder) : Prop :=
  b.idx_ = b.raw_keys_.length

end EncodedKeyBuilder

/-- Tail of a comma-separated rendering: a leading `","` before each
element. -/
def commaTail : List String → String
  | [] => ""
  | p :: rest => "," ++ p ++ commaTail rest

/-- Comma-separated join of a list of strings. -/
def commaJoin : List String → String
  | [] => ""
  | p :: rest => p ++ commaTail rest

section Demo

/-- A concrete three-key-column schema used to instantiate theorems. -/
def demoSchema : Schema :=
  { num_key_columns := 3
    key_byte_size := 12
    column_offset := fun i => 4 * i
    decodeRowKey := fun _ _ => .ok ()
    colEncode := fun i v _ => [i, v % 256]
    colStringify := fun i p => toString i ++ ":" ++ toString p
    colNullable := fun _ => false }

/-- `demoSchema` with a row-key decoder that always fails. -/
def demoSchemaErr : Schema :=
  { demoSchema with decodeRowKey := fun _ _ => .error "bad" }

/-- A concrete single-key-column schema. -/
def demoSchema1 : Schema :=
  { num_key_columns := 1
    key_byte_size := 4
    column_offset := fun _ => 0
    decodeRowKey := fun _ _ => .ok ()
    colEncode := fun _ v _ => [v]
    colStringify := fun _ p => toString p
    colNullable := fun _ => false }

/-- An arena whose allocations always succeed at base 100. -/
def demoArena : Arena := ⟨fun _ => some 100⟩

/-- An arena whose allocations always fail. -/
def demoArenaOOM : Arena := ⟨fun _ => none⟩

/-- A builder over `demoSchema` after two `AddColumnKey` calls. -/
def demoBuilder : EncodedKeyBuilder :=
  EncodedKeyBuilder.addAll (EncodedKeyBuilder.mkNew demoSchema) [7, 8]

/-- A complete single-column key over `demoSchema1`. -/
def demoKey1 : EncodedKey :=
  { data_ := [5], raw_keys_ := [5], num_key_cols_ := 1 }

/-- A builder over `demoSchema1` whose buffer is the maximum byte
value, so no successor exists. -/
def demoBuilderMax : EncodedKeyBuilder :=
  EncodedKeyBuilder.addAll (EncodedKeyBuilder.mkNew demoSchema1) [255]

/-- A two-of-three-columns (incomplete) key over `demoSchema`. -/
def demoKeyTwoOfThree : EncodedKey :=
  { data_ := [0, 7, 1, 8], raw_keys_ := [10, 20], num_key_cols_ := 3 }

end Demo

/-! ### Helper lemmas about `addAll` -/

theorem addAll_nil (b : EncodedKeyBuilder) : b.addAll [] = b := rfl

theorem addAll_cons (b : EncodedKeyBuilder) (v : Nat) (vs : List Nat) :
    b.addAll (v :: vs) = (b.AddColumnKey v).addAll vs := rfl

theorem addAll_raw_keys (vs : List Nat) :
    ∀ b : EncodedKeyBuilder, (b.addAll vs).raw_keys_ = b.raw_keys_ ++ vs := by
  induction vs with
  | nil => intro b; simp [addAll_nil]
  | cons v rest ih =>
    intro b
    rw [addAll_cons, ih]
    simp [EncodedKeyBuilder.AddColumnKey]

theorem addAll_idx (vs : List Nat) :
    ∀ b : EncodedKeyBuilder, (b.addAll vs).idx_ = b.idx_ + vs.length := by
  induction vs with
  | nil => intro b; simp [addAll_nil]
  | cons v rest ih =>
    intro b
    rw [addAll_cons, ih]
    simp [EncodedKeyBuilder.AddColumnKey]
    omega

theorem addAll_num (vs : List Nat) :
    ∀ b : EncodedKeyBuilder, (b.addAll vs).num_key_cols_ = b.num_key_cols_ := by
  induction vs with
  | nil => intro b; simp [addAll_nil]
  | cons v rest ih =>
    intro b
    rw [addAll_cons, ih]
    rfl

theorem getD_range_map (l : List Nat) :
    (List.range l.length).map (fun i => l.getD i 0) = l := by
  induction l with
  | nil => simp
  | cons x xs ih =>
    rw [List.length_cons, List.range_succ_eq_map, List.map_cons, List.map_map]
    simp only [List.getD_cons_zero, Function.comp]
    congr 1

theorem foldl_getD_eq_addAll (b : EncodedKeyBuilder) (l : List Nat) :
    (List.range l.length).foldl
      (fun b i => b.AddColumnKey (l.getD i 0)) b = b.addAll l := by
  have h := List.foldl_map (fun i => l.getD i 0) EncodedKeyBuilder.AddColumnKey
    (List.range l.length) b
  rw [getD_range_map] at h
  exact h.symm

/-! ### C5: BuildEncodedKey -/

/-- C5: `BuildEncodedKey` returns absent exactly when zero columns were
added (`idx_ = 0`); otherwise it returns a new `EncodedKey` taking
ownership of the accumulated buffer and raw-value references and resets
the cursor to 0 (buffer and raw-value list move out, leaving the
builder ready to accumulate a fresh key). -/
theorem C5_build_encoded_key (b : EncodedKeyBuilder) :
    (b.BuildEncodedKey.1 = none ↔ b.idx_ = 0) ∧
    (b.idx_ ≠ 0 →
      b.BuildEncodedKey =
        (some { data_ := b.encoded_key_
                raw_keys_ := b.raw_keys_
                num_key_cols_ := b.num_key_cols_ },
         { b with encoded_key_ := [], raw_keys_ := [], idx_ := 0 })) := by
  unfold EncodedKeyBuilder.BuildEncodedKey
  by_cases h : b.idx_ = 0 <;> simp [h]

/-- Witness for C5 at a concrete builder with two columns added. -/
theorem C5_build_encoded_key_witness :
    demoBuilder.idx_ ≠ 0 ∧
    demoBuilder.BuildEncodedKey =
      (some { data_ := demoBuilder.encoded_key_
              raw_keys_ := demoBuilder.raw_keys_
              num_key_cols_ := demoBuilder.num_key_cols_ },
       { demoBuilder with encoded_key_ := [], raw_keys_ := [], idx_ := 0 }) :=
  ⟨by decide, (C5_build_encoded_key demoBuilder).2 (by decide)⟩

/-! ### C6: cursor/raw-value-list invariant -/

/-- C6: `next_index == raw_values_so_far.length` holds after
construction and is preserved by `AddColumnKey`, `Reset`, successful and
unsuccessful `BuildEncodedKey` (on success both reset to 0/empty), and
`AssignCopy` (copied together from the source builder). -/
theorem C6_cursor_invariant (schema : Schema) (b other : EncodedKeyBuilder)
    (v : Nat) (hb : b.cursorInv) (ho : other.cursorInv) :
    (EncodedKeyBuilder.mkNew schema).cursorInv ∧
    (b.AddColumnKey v).cursorInv ∧
    b.Reset.cursorInv ∧
    b.BuildEncodedKey.2.cursorInv ∧
    (b.AssignCopy other).cursorInv := by
  unfold EncodedKeyBuilder.cursorInv at *
  refine ⟨rfl, ?_, rfl, ?_, ?_⟩
  · simp [EncodedKeyBuilder.AddColumnKey, hb]
  · unfold EncodedKeyBuilder.BuildEncodedKey
    by_cases h : b.idx_ = 0
    · simpa [h] using hb
    · simp [h]
  · simpa [EncodedKeyBuilder.AssignCopy] using ho

/-- Witness for C6 at a concrete builder state. -/
theorem C6_cursor_invariant_witness :
    demoBuilder.cursorInv ∧
    ((EncodedKeyBuilder.mkNew demoSchema).cursorInv ∧
     (demoBuilder.AddColumnKey 9).cursorInv ∧
     demoBuilder.Reset.cursorInv ∧
     demoBuilder.BuildEncodedKey.2.cursorInv ∧
     (demoBuilder.AssignCopy demoBuilder).cursorInv) :=
  ⟨rfl, C6_cursor_invariant demoSchema demoBuilder demoBuilder 9 rfl rfl⟩

/-! ### C7: the `is_last` flag -/

theorem addFlags_shift (vs : List Nat) :
    ∀ b : EncodedKeyBuilder,
      b.addFlags vs =
        (List.range vs.length).map
          (fun j => decide (b.idx_ + j = b.num_key_cols_ - 1)) := by
  induction vs with
  | nil => intro b; simp [EncodedKeyBuilder.addFlags]
  | cons v rest ih =>
    intro b
    rw [EncodedKeyBuilder.addFlags, ih, List.length_cons,
      List.range_succ_eq_map, List.map_cons, List.map_map]
    congr 1
    apply List.map_congr_left
    intro j _
    simp only [EncodedKeyBuilder.AddColumnKey, Function.comp_apply]
    apply decide_eq_decide.mpr
    omega

/-- C7: over any sequence of `AddColumnKey` calls starting from a fresh
builder for a schema with `n` key columns (total length at most `n`),
the `is_last` flag passed to the per-type codec at step `j` is true
exactly when the column being encoded is column `n - 1`. -/
theorem C7_is_last_flag (schema : Schema) (vs : List Nat)
    (_hlen : vs.length ≤ schema.num_key_columns) :
    (EncodedKeyBuilder.mkNew schema).addFlags vs =
      (List.range vs.length).map
        (fun j => decide (j = schema.num_key_columns - 1)) := by
  rw [addFlags_shift]
  apply List.map_congr_left
  intro j _
  simp [EncodedKeyBuilder.mkNew]

/-- Witness for C7: two values added under the three-column schema, so
neither call is the last column. -/
theorem C7_is_last_flag_witness :
    ([7, 8] : List Nat).length ≤ demoSchema.num_key_columns ∧
    (EncodedKeyBuilder.mkNew demoSchema).addFlags [7, 8] =
      (List.range ([7, 8] : List Nat).length).map
        (fun j => decide (j = demoSchema.num_key_columns - 1)) :=
  ⟨by decide, C7_is_last_flag demoSchema [7, 8] (by decide)⟩

/-! ### C2: BuildSuccessorEncodedKey -/

theorem advanceRev_all255 (l : List Nat) (h : ∀ x ∈ l, x = 255) :
    (advanceRev l).1 = false := by
  induction l with
  | nil => rfl
  | cons b rest ih =>
    have hb : b = 255 := h b (by simp)
    have hrest : (advanceRev rest).1 = false :=
      ih (fun x hx => h x (by simp [hx]))
    simp [advanceRev, hb, hrest]

/-- C2: `BuildSuccessorEncodedKey` applies the advance-to-successor
transform to the buffer first and only then finalizes; when the
transform reports no successor it returns absent without finalizing (no
`EncodedKey`, cursor and raw-value list untouched); and the transform
fails on every all-maximum buffer, so successor never wraps around. -/
theorem C2_build_successor (b : EncodedKeyBuilder) :
    (∀ buf, AdvanceToSuccessor b.encoded_key_ = (true, buf) →
      b.BuildSuccessorEncodedKey =
        EncodedKeyBuilder.BuildEncodedKey { b with encoded_key_ := buf }) ∧
    ((AdvanceToSuccessor b.encoded_key_).1 = false →
      b.BuildSuccessorEncodedKey.1 = none ∧
      b.BuildSuccessorEncodedKey.2.idx_ = b.idx_ ∧
      b.BuildSuccessorEncodedKey.2.raw_keys_ = b.raw_keys_) ∧
    (∀ buf : List Nat, (∀ x ∈ buf, x = 255) →
      (AdvanceToSuccessor buf).1 = false) := by
  refine ⟨?_, ?_, ?_⟩
  · intro buf h
    simp [EncodedKeyBuilder.BuildSuccessorEncodedKey, h]
  · intro h
    simp [EncodedKeyBuilder.BuildSuccessorEncodedKey, h]
  · intro buf h
    unfold AdvanceToSuccessor
    exact advanceRev_all255 _ (fun x hx => h x (List.mem_reverse.mp hx))

/-- Witness for C2 at a builder whose buffer is the single maximum
byte. -/
theorem C2_build_successor_witness :
    (AdvanceToSuccessor demoBuilderMax.encoded_key_).1 = false ∧
    (demoBuilderMax.BuildSuccessorEncodedKey.1 = none ∧
     demoBuilderMax.BuildSuccessorEncodedKey.2.idx_ = demoBuilderMax.idx_ ∧
     demoBuilderMax.BuildSuccessorEncodedKey.2.raw_keys_ =
       demoBuilderMax.raw_keys_) :=
  ⟨by decide, (C2_build_successor demoBuilderMax).2.1 (by decide)⟩

/-! ### C1: IncrementEncodedKey -/

/-- C1: for a complete key (all key columns populated, column count
matching the schema), `IncrementEncodedKey` either succeeds and
replaces the key slot with the successor key built from the key's raw
values (same raw-value pointers, successor of the re-encoded bytes,
same column count), or fails with no-successor and leaves the key slot
entirely unmodified. -/
theorem C1_increment_encoded_key (schema : Schema) (key : EncodedKey)
    (_hn : key.num_key_cols_ = schema.num_key_columns)
    (hc : key.raw_keys_.length = schema.num_key_columns) :
    (∃ buf,
      AdvanceToSuccessor
          ((EncodedKeyBuilder.mkNew schema).addAll key.raw_keys_).encoded_key_
        = (true, buf) ∧
      EncodedKey.IncrementEncodedKey schema key =
        (.ok, { data_ := buf
                raw_keys_ := key.raw_keys_
                num_key_cols_ := schema.num_key_columns })) ∨
    ((AdvanceToSuccessor
          ((EncodedKeyBuilder.mkNew schema).addAll key.raw_keys_).encoded_key_).1
        = false ∧
      EncodedKey.IncrementEncodedKey schema key = (.noSuccessor, key)) := by
  have hfold : (EncodedKey.incrementReadIndices schema).foldl
      (fun b i => b.AddColumnKey (key.raw_keys_.getD i 0))
      (EncodedKeyBuilder.mkNew schema)
      = (EncodedKeyBuilder.mkNew schema).addAll key.raw_keys_ := by
    unfold EncodedKey.incrementReadIndices
    rw [← hc]
    exact foldl_getD_eq_addAll _ _
  set kb := (EncodedKeyBuilder.mkNew schema).addAll key.raw_keys_ with hkb
  have hidx : kb.idx_ = schema.num_key_columns := by
    rw [hkb, addAll_idx]
    simp [EncodedKeyBuilder.mkNew, hc]
  have hraw : kb.raw_keys_ = key.raw_keys_ := by
    rw [hkb, addAll_raw_keys]
    simp [EncodedKeyBuilder.mkNew]
  have hnum : kb.num_key_cols_ = schema.num_key_columns := by
    rw [hkb, addAll_num]
    rfl
  unfold EncodedKey.IncrementEncodedKey
  rw [hfold]
  rcases hadv : AdvanceToSuccessor kb.encoded_key_ with ⟨ok, buf⟩
  cases ok with
  | false =>
    right
    refine ⟨rfl, ?_⟩
    simp [EncodedKeyBuilder.BuildSuccessorEncodedKey, hadv]
  | true =>
    left
    refine ⟨buf, rfl, ?_⟩
    have hidx0 : kb.idx_ ≠ 0 := by
      intro h0
      have hz : schema.num_key_columns = 0 := by omega
      have hr0 : key.raw_keys_ = [] := List.length_eq_zero.mp (by omega)
      have henc : kb.encoded_key_ = [] := by
        rw [hkb, hr0, addAll_nil]
        rfl
      rw [henc] at hadv
      simp [AdvanceToSuccessor, advanceRev] at hadv
    simp [EncodedKeyBuilder.BuildSuccessorEncodedKey, hadv,
      EncodedKeyBuilder.BuildEncodedKey, hidx0, hraw, hnum]

/-- Witness for C1 at the complete single-column key `demoKey1`. -/
theorem C1_increment_encoded_key_witness :
    demoKey1.num_key_cols_ = demoSchema1.num_key_columns ∧
    demoKey1.raw_keys_.length = demoSchema1.num_key_columns ∧
    ((∃ buf,
      AdvanceToSuccessor
          ((EncodedKeyBuilder.mkNew demoSchema1).addAll demoKey1.raw_keys_).encoded_key_
        = (true, buf) ∧
      EncodedKey.IncrementEncodedKey demoSchema1 demoKey1 =
        (.ok, { data_ := buf
                raw_keys_ := demoKey1.raw_keys_
                num_key_cols_ := demoSchema1.num_key_columns })) ∨
    ((AdvanceToSuccessor
          ((EncodedKeyBuilder.mkNew demoSchema1).addAll demoKey1.raw_keys_).encoded_key_).1
        = false ∧
      EncodedKey.IncrementEncodedKey demoSchema1 demoKey1 =
        (.noSuccessor, demoKey1))) :=
  ⟨rfl, rfl, C1_increment_encoded_key demoSchema1 demoKey1 rfl rfl⟩

/-! ### C3: DecodeEncodedString success shape -/

/-- C3: when `DecodeEncodedString` succeeds, the returned key has one
raw value per key column, raw-value pointer `i` equal to the arena
allocation base plus `column_offset(i)`, a byte buffer equal to (a
fresh copy of) the input, and the schema's key-column count. -/
theorem C3_decode_success_shape (schema : Schema) (arena : Arena)
    (encoded : List Nat) (k : EncodedKey)
    (h : EncodedKey.DecodeEncodedString schema arena encoded = (.okS, some k)) :
    ∃ base, arena.allocateBytes schema.key_byte_size = some base ∧
      k.raw_keys_.length = schema.num_key_columns ∧
      (∀ i, i < schema.num_key_columns →
        k.raw_keys_[i]? = some (base + schema.column_offset i)) ∧
      k.data_ = encoded ∧
      k.num_key_cols_ = schema.num_key_columns := by
  unfold EncodedKey.DecodeEncodedString at h
  cases halloc : arena.allocateBytes schema.key_byte_size with
  | none =>
    simp only [halloc] at h
    simp at h
  | some base =>
    simp only [halloc] at h
    cases hdec : schema.decodeRowKey encoded base with
    | error e =>
      simp only [hdec] at h
      simp at h
    | ok u =>
      simp only [hdec] at h
      have hk : ({ data_ := encoded
                   raw_keys_ := (List.range schema.num_key_columns).map
                     (fun i => base + schema.column_offset i)
                   num_key_cols_ := schema.num_key_columns } : EncodedKey)
          = k := by
        simpa using h
      subst hk
      refine ⟨base, rfl, by simp, ?_, rfl, rfl⟩
      intro i hi
      simp [List.getElem?_map, List.getElem?_range hi]

/-- Witness for C3 at a concrete schema, arena and input. -/
theorem C3_decode_success_shape_witness :
    EncodedKey.DecodeEncodedString demoSchema demoArena [1, 2] =
      (.okS, some { data_ := [1, 2]
                    raw_keys_ := [100, 104, 108]
                    num_key_cols_ := 3 }) ∧
    (∃ base, demoArena.allocateBytes demoSchema.key_byte_size = some base ∧
      ([100, 104, 108] : List Nat).length = demoSchema.num_key_columns ∧
      (∀ i, i < demoSchema.num_key_columns →
        ([100, 104, 108] : List Nat)[i]? =
          some (base + demoSchema.column_offset i)) ∧
      ([1, 2] : List Nat) = [1, 2] ∧
      3 = demoSchema.num_key_columns) :=
  ⟨by decide,
   C3_decode_success_shape demoSchema demoArena [1, 2]
     { data_ := [1, 2], raw_keys_ := [100, 104, 108], num_key_cols_ := 3 }
     (by decide)⟩

/-! ### C4: DecodeEncodedString failure paths -/

/-- C4: `DecodeEncodedString` fails with out-of-memory exactly when the
arena allocation of `key_byte_size` bytes fails; otherwise a row-key
decoder failure is propagated unchanged as a decode error; in either
failure case the output result slot is not populated. -/
theorem C4_decode_failure_paths (schema : Schema) (arena : Arena)
    (encoded : List Nat) :
    ((EncodedKey.DecodeEncodedString schema arena encoded).1 = .oom ↔
      arena.allocateBytes schema.key_byte_size = none) ∧
    (∀ base, arena.allocateBytes schema.key_byte_size = some base →
      ∀ e, ((EncodedKey.DecodeEncodedString schema arena encoded).1 =
          .decodeError e ↔
        schema.decodeRowKey encoded base = .error e)) ∧
    ((EncodedKey.DecodeEncodedString schema arena encoded).1 ≠ .okS →
      (EncodedKey.DecodeEncodedString schema arena encoded).2 = none) := by
  cases halloc : arena.allocateBytes schema.key_byte_size with
  | none =>
    simp [EncodedKey.DecodeEncodedString, halloc]
  | some base =>
    cases hdec : schema.decodeRowKey encoded base with
    | error e =>
      simp [EncodedKey.DecodeEncodedString, halloc, hdec]
    | ok u =>
      simp [EncodedKey.DecodeEncodedString, halloc, hdec]

/-- Witness for C4: the out-of-memory arena and a failing row-key
decoder, at concrete inputs. -/
theorem C4_decode_failure_paths_witness :
    (EncodedKey.DecodeEncodedString demoSchema demoArenaOOM [1]).1 = .oom ∧
    (EncodedKey.DecodeEncodedString demoSchemaErr demoArena [1]).1 =
      .decodeError "bad" ∧
    (EncodedKey.DecodeEncodedString demoSchemaErr demoArena [1]).2 = none :=
  ⟨((C4_decode_failure_paths demoSchema demoArenaOOM [1]).1).mpr rfl,
   ((C4_decode_failure_paths demoSchemaErr demoArena [1]).2.1 100 rfl
     "bad").mpr rfl,
   (C4_decode_failure_paths demoSchemaErr demoArena [1]).2.2 (by decide)⟩

/-! ### C8: Stringify rendering -/

theorem commaTail_loop (f : Nat → String) (l : List Nat) :
    ∀ acc : String, (∀ i ∈ l, 0 < i) →
      l.foldl (fun s i => s ++ (if i > 0 then "," else "") ++ f i) acc
        = acc ++ commaTail (l.map f) := by
  induction l with
  | nil =>
    intro acc _
    simp [commaTail, String.append_empty]
  | cons i rest ih =>
    intro acc h
    have hi : 0 < i := h i (by simp)
    rw [List.foldl_cons, List.map_cons, commaTail, if_pos hi,
      ih _ (fun x hx => h x (by simp [hx]))]
    simp [String.append_assoc]

/-- C8: a key over at least two key columns with `k ≤ num_key_columns`
raw values renders as a parenthesized comma-separated tuple, each of
columns `0..k-1` via its column formatter and each later column as the
wildcard; a single-key-column key renders via the column-0 formatter
alone, with no parentheses. (The embedding of `Stringify` is a pure
function of the key, so it has no side effects on it.) -/
theorem C8_stringify_format (schema : Schema) (k : EncodedKey)
    (h2 : 2 ≤ k.num_key_cols_)
    (_hk : k.raw_keys_.length ≤ k.num_key_cols_) :
    (k.Stringify schema =
      some ("(" ++ commaJoin ((List.range k.num_key_cols_).map
        (fun i => if i < k.raw_keys_.length then
            schema.colStringify i (k.raw_keys_.getD i 0)
          else "*")) ++ ")")) ∧
    (∀ k' : EncodedKey, k'.num_key_cols_ = 1 →
      k'.Stringify schema =
        k'.raw_keys_.head?.map (fun p => schema.colStringify 0 p)) := by
  constructor
  · have h1 : k.num_key_cols_ ≠ 1 := by omega
    unfold EncodedKey.Stringify
    rw [if_neg h1, Option.some.injEq]
    obtain ⟨m, hm⟩ : ∃ m, k.num_key_cols_ = m + 1 := ⟨k.num_key_cols_ - 1, by omega⟩
    rw [hm, List.range_succ_eq_map, List.foldl_cons, List.map_cons]
    rw [commaTail_loop _ _ _ (by simp)]
    rw [commaJoin]
    have h0 : ¬ (0 : Nat) > 0 := by omega
    rw [if_neg h0, String.append_empty]
    simp [String.append_assoc]
  · intro k' h1
    unfold EncodedKey.Stringify
    rw [if_pos h1]

/-- Witness for C8 at a three-column key carrying two raw values. -/
theorem C8_stringify_format_witness :
    (2 ≤ demoKeyTwoOfThree.num_key_cols_ ∧
     demoKeyTwoOfThree.raw_keys_.length ≤ demoKeyTwoOfThree.num_key_cols_) ∧
    demoKeyTwoOfThree.Stringify demoSchema =
      some ("(" ++ commaJoin ((List.range demoKeyTwoOfThree.num_key_cols_).map
        (fun i => if i < demoKeyTwoOfThree.raw_keys_.length then
            demoSchema.colStringify i (demoKeyTwoOfThree.raw_keys_.getD i 0)
          else "*")) ++ ")") :=
  ⟨⟨by decide, by decide⟩,
   (C8_stringify_format demoSchema demoKeyTwoOfThree (by decide) (by decide)).1⟩

/-! ### C9: IncrementEncodedKey read bounds -/

/-- C9: `IncrementEncodedKey` reads the raw-value list at every index
below `schema.num_key_columns()`, so all reads are in bounds exactly
when `raw_values.length ≥ num_key_columns`; under the checked
precondition alone a key with fewer raw values than key columns still
exists, and for it the read at index `raw_values.length` is out of
range. -/
theorem C9_increment_read_bounds (schema : Schema) (key : EncodedKey)
    (hn : key.num_key_cols_ = schema.num_key_columns)
    (hp : key.raw_keys_.length < key.num_key_cols_) :
    (∀ k' : EncodedKey,
      ((∀ i ∈ EncodedKey.incrementReadIndices schema,
          i < k'.raw_keys_.length) ↔
        schema.num_key_columns ≤ k'.raw_keys_.length)) ∧
    (key.raw_keys_.length ∈ EncodedKey.incrementReadIndices schema ∧
      ¬ key.raw_keys_.length < key.raw_keys_.length) := by
  unfold EncodedKey.incrementReadIndices
  constructor
  · intro k'
    constructor
    · intro h
      by_contra hlt
      push_neg at hlt
      have := h k'.raw_keys_.length (List.mem_range.mpr hlt)
      omega
    · intro h i hi
      have := List.mem_range.mp hi
      omega
  · exact ⟨List.mem_range.mpr (by omega), by omega⟩

/-- Witness for C9 at the two-of-three-columns key. -/
theorem C9_increment_read_bounds_witness :
    (demoKeyTwoOfThree.num_key_cols_ = demoSchema.num_key_columns ∧
     demoKeyTwoOfThree.raw_keys_.length < demoKeyTwoOfThree.num_key_cols_) ∧
    (demoKeyTwoOfThree.raw_keys_.length ∈
        EncodedKey.incrementReadIndices demoSchema ∧
      ¬ demoKeyTwoOfThree.raw_keys_.length <
          demoKeyTwoOfThree.raw_keys_.length) :=
  ⟨⟨rfl, by decide⟩,
   (C9_increment_read_bounds demoSchema demoKeyTwoOfThree rfl (by decide)).2⟩

/-! ### C10: Stringify single-column precondition -/

/-- C10: on a single-key-column key, `Stringify` unconditionally reads
the front of the raw-value list: it is well-defined exactly when at
least one raw value is present, in which case it renders that value via
the column-0 formatter (the wildcard branch is never taken), and on an
empty raw-value list the access has no defined result. -/
theorem C10_stringify_single_column (schema : Schema) (k : EncodedKey)
    (h1 : k.num_key_cols_ = 1) :
    ((k.Stringify schema).isSome ↔ k.raw_keys_ ≠ []) ∧
    (∀ v rest, k.raw_keys_ = v :: rest →
      k.Stringify schema = some (schema.colStringify 0 v)) ∧
    (k.raw_keys_ = [] → k.Stringify schema = none) := by
  unfold EncodedKey.Stringify
  rw [if_pos h1]
  refine ⟨?_, ?_, ?_⟩
  · cases hr : k.raw_keys_ <;> simp [hr]
  · intro v rest hr
    simp [hr]
  · intro hr
    simp [hr]

/-- Witness for C10 at the populated single-column key `demoKey1`. -/
theorem C10_stringify_single_column_witness :
    (demoKey1.num_key_cols_ = 1 ∧ demoKey1.raw_keys_ = 5 :: []) ∧
    demoKey1.Stringify demoSchema1 =
      some (demoSchema1.colStringify 0 5) :=
  ⟨⟨rfl, rfl⟩,
   (C10_stringify_single_column demoSchema1 demoKey1 rfl).2.1 5 [] rfl⟩

end Kudu
